import Mathlib

/-!
Shallow embedding of `src/src/vecbool.rs` (crate `vecbool`): a packed boolean
vector stored in `u8` chunks.  Chunks are modelled as `Nat`; every mask used by
the code is `1 <<< k` with `k < 8`, and the Rust bitwise-not `!mask` on `u8` is
modelled as `255 ^^^ mask`.  `Vec<u8>` is modelled as `List Nat`; Rust's
out-of-bounds index panic can never fire on reachable states (proved below via
the length invariant), so in-bounds reads are `List.getD` and in-bounds writes
are `List.set`.  `Vec::pop` is `List.dropLast` (a no-op on the empty vector,
exactly as in Rust).
-/

namespace VecBoolSpec

/-- `const CHUNK_SIZE: usize = 8;` -/
def CHUNK_SIZE : Nat := 8

/-- `type Chunk = u8;` modelled as `Nat` (kept meaningful modulo 2^8 by the
bit-level reasoning; every mask is below 256). -/
abbrev Chunk := Nat

/-- `pub struct VecBool { len: usize, chunks: Vec<Chunk> }` -/
structure VecBool where
  len : Nat
  chunks : List Chunk
deriving DecidableEq

namespace VecBool

/-- `VecBool::new`: empty, no chunks. -/
def new : VecBool :=
  { chunks := [], len := 0 }

/-- `VecBool::with_capacity`: `Vec::with_capacity((capacity / CHUNK_SIZE) + 1)`
reserves backing memory but the vector has zero elements, so `chunks` is empty;
the reserved element count is recorded by `with_capacity_reserved_chunks`. -/
def with_capacity (capacity : Nat) : VecBool :=
  { chunks := [], len := 0 }

/-- The argument the source passes to `Vec::with_capacity`:
`(capacity / CHUNK_SIZE) + 1`.  This reservation is invisible to every public
operation of `VecBool` (in particular to `VecBool::capacity`, which counts the
vector's elements, not its reserve). -/
def with_capacity_reserved_chunks (capacity : Nat) : Nat :=
  capacity / CHUNK_SIZE + 1

/-- `VecBool::with_zeros`: `vec![0; (len / CHUNK_SIZE) + 1]`. -/
def with_zeros (len : Nat) : VecBool :=
  { chunks := List.replicate (len / CHUNK_SIZE + 1) 0, len := len }

/-- `VecBool::capacity`: `self.chunks.len() * CHUNK_SIZE`. -/
def capacity (s : VecBool) : Nat :=
  s.chunks.length * CHUNK_SIZE

/-- `VecBool::get_index`: chunk index and mask for a logical index. -/
def get_index (index : Nat) : Nat × Chunk :=
  let chunk_index := index / CHUNK_SIZE
  let shifts := index % CHUNK_SIZE
  let mask := 1 <<< shifts
  (chunk_index, mask)

/-- `VecBool::get_unchecked`: `(self.chunks[chunk_index] & mask) != 0`.
The Rust indexing panics out of bounds; on reachable states every internal
call is in bounds (see `Inv`), so the read is modelled with `List.getD`. -/
def get_unchecked (s : VecBool) (index : Nat) : Bool :=
  let p := get_index index
  let bits := s.chunks.getD p.1 0
  bits &&& p.2 != 0

/-- `VecBool::get`: `None` when `index >= self.len`. -/
def get (s : VecBool) (index : Nat) : Option Bool :=
  if index ≥ s.len then none
  else some (s.get_unchecked index)

/-- `VecBool::set_unchecked`: `chunks[i] |= mask` / `chunks[i] &= !mask`,
with `!mask` on `u8` being `255 ^^^ mask`. -/
def set_unchecked (s : VecBool) (index : Nat) (value : Bool) : VecBool :=
  let p := get_index index
  if value then
    { s with chunks := s.chunks.set p.1 (s.chunks.getD p.1 0 ||| p.2) }
  else
    { s with chunks := s.chunks.set p.1 (s.chunks.getD p.1 0 &&& (255 ^^^ p.2)) }

/-- `VecBool::set`: returns `false` and leaves the state alone when
`index >= self.len`; otherwise updates and returns `true`.  The mutation is
returned as the second component. -/
def set (s : VecBool) (index : Nat) (value : Bool) : Bool × VecBool :=
  if index ≥ s.len then (false, s)
  else (true, s.set_unchecked index value)

/-- `VecBool::push`: grow by one zero chunk when `len >= capacity()`, then
increment `len` and write the bit at the new last index. -/
def push (s : VecBool) (value : Bool) : VecBool :=
  let s1 := if s.len ≥ s.capacity then { s with chunks := s.chunks ++ [0] } else s
  let s2 := { s1 with len := s1.len + 1 }
  s2.set_unchecked (s2.len - 1) value

/-- `VecBool::pop`: `None` on empty; otherwise decrement `len`, read the bit at
the new `len`, and drop the trailing chunk when the new `len` is a multiple of
`CHUNK_SIZE`.  Returns the value together with the mutated state. -/
def pop (s : VecBool) : Option Bool × VecBool :=
  if s.len = 0 then (none, s)
  else
    let s1 := { s with len := s.len - 1 }
    let data := s1.get_unchecked s1.len
    let s2 := if s1.len % CHUNK_SIZE = 0 then { s1 with chunks := s1.chunks.dropLast } else s1
    (some data, s2)

/-- `VecBool::iter`: the first `len / CHUNK_SIZE` chunks expanded to 8 bits
each, then the bits `0 .. len % CHUNK_SIZE` of `self.chunks.last()`
(`unwrap_or_default`, i.e. `0` when there is no chunk). -/
def iter (s : VecBool) : List Bool :=
  ((s.chunks.take (s.len / CHUNK_SIZE)).flatMap
      (fun chunk => (List.range CHUNK_SIZE).map (fun shift => chunk &&& (1 <<< shift) != 0)))
    ++ ((List.range (s.len % CHUNK_SIZE)).map
      (fun shift => s.chunks.getLast?.getD 0 &&& (1 <<< shift) != 0))

/-- The states reachable through the public API: any constructor followed by
any sequence of `push`, `pop`, `set`. -/
inductive Reachable : VecBool → Prop
  | of_new : Reachable new
  | of_with_capacity (c : Nat) : Reachable (with_capacity c)
  | of_with_zeros (n : Nat) : Reachable (with_zeros n)
  | of_push (s : VecBool) (v : Bool) : Reachable s → Reachable (s.push v)
  | of_pop (s : VecBool) : Reachable s → Reachable (s.pop).2
  | of_set (s : VecBool) (i : Nat) (v : Bool) : Reachable s → Reachable (s.set i v).2

/-- The inductive invariant of reachable states: the length fits in the
allocated chunks, the chunk count is at most `len / CHUNK_SIZE + 2`, and at
chunk boundaries at most `len / CHUNK_SIZE + 1`. -/
def Inv (s : VecBool) : Prop :=
  s.len ≤ s.chunks.length * CHUNK_SIZE ∧
  s.chunks.length ≤ s.len / CHUNK_SIZE + 2 ∧
  (s.len % CHUNK_SIZE = 0 → s.chunks.length ≤ s.len / CHUNK_SIZE + 1)

/-! ### Bit-level helpers -/

lemma bne_and_shift (n k : Nat) : (n &&& (1 <<< k) != 0) = n.testBit k := by
  rw [Nat.shiftLeft_eq, one_mul, Nat.and_two_pow]
  cases h : n.testBit k <;> simp [h]

lemma testBit_255 (m : Nat) (h : m < 8) : Nat.testBit 255 m = true := by
  interval_cases m <;> decide

/-! ### List helpers -/

lemma getD_set_self (l : List Chunk) (i : Nat) (x : Chunk) (h : i < l.length) :
    (l.set i x).getD i 0 = x := by
  rw [List.getD_eq_getElem?_getD, List.getElem?_set_self h]
  rfl

lemma getD_set_ne (l : List Chunk) (i j : Nat) (x : Chunk) (h : i ≠ j) :
    (l.set i x).getD j 0 = l.getD j 0 := by
  rw [List.getD_eq_getElem?_getD, List.getElem?_set_ne h, ← List.getD_eq_getElem?_getD]

/-! ### Unfolding lemmas for the operations -/

lemma get_index_fst (i : Nat) : (get_index i).1 = i / CHUNK_SIZE := rfl

lemma get_index_snd (i : Nat) : (get_index i).2 = 1 <<< (i % CHUNK_SIZE) := rfl

lemma mod_chunk_lt (i : Nat) : i % CHUNK_SIZE < 8 :=
  Nat.mod_lt i (by decide)

lemma div_mod_chunk_inj (i j : Nat) (hc : i / CHUNK_SIZE = j / CHUNK_SIZE)
    (hm : i % CHUNK_SIZE = j % CHUNK_SIZE) : i = j := by
  have hc8 : i / 8 = j / 8 := hc
  have hm8 : i % 8 = j % 8 := hm
  omega

lemma get_unchecked_eq (s : VecBool) (i : Nat) :
    s.get_unchecked i = (s.chunks.getD (i / CHUNK_SIZE) 0 &&& (1 <<< (i % CHUNK_SIZE)) != 0) :=
  rfl

lemma set_unchecked_len (s : VecBool) (i : Nat) (v : Bool) :
    (s.set_unchecked i v).len = s.len := by
  cases v <;> rfl

lemma set_unchecked_chunks_length (s : VecBool) (i : Nat) (v : Bool) :
    (s.set_unchecked i v).chunks.length = s.chunks.length := by
  cases v <;> simp [set_unchecked, get_index, List.length_set]

/-- Reading back the bit just written, at an in-bounds chunk. -/
lemma get_unchecked_set_unchecked_self (s : VecBool) (i : Nat) (v : Bool)
    (h : i / CHUNK_SIZE < s.chunks.length) :
    (s.set_unchecked i v).get_unchecked i = v := by
  cases v with
  | false =>
      rw [get_unchecked_eq]
      show ((s.chunks.set (i / CHUNK_SIZE) _).getD (i / CHUNK_SIZE) 0 &&& _ != 0) = false
      rw [getD_set_self _ _ _ h, bne_and_shift, get_index_snd, Nat.shiftLeft_eq, one_mul,
        Nat.testBit_and, Nat.testBit_xor, testBit_255 _ (mod_chunk_lt i),
        Nat.testBit_two_pow_self]
      simp
  | true =>
      rw [get_unchecked_eq]
      show ((s.chunks.set (i / CHUNK_SIZE) _).getD (i / CHUNK_SIZE) 0 &&& _ != 0) = true
      rw [getD_set_self _ _ _ h, bne_and_shift, get_index_snd, Nat.shiftLeft_eq, one_mul,
        Nat.testBit_or, Nat.testBit_two_pow_self]
      simp

/-- `set_unchecked` touches no logical bit other than the one at its index. -/
lemma get_unchecked_set_unchecked_ne (s : VecBool) (i j : Nat) (v : Bool) (hij : j ≠ i) :
    (s.set_unchecked i v).get_unchecked j = s.get_unchecked j := by
  rcases eq_or_ne (i / CHUNK_SIZE) (j / CHUNK_SIZE) with hc | hc
  · rcases Nat.lt_or_ge (i / CHUNK_SIZE) s.chunks.length with hin | hin
    · have hbit : i % CHUNK_SIZE ≠ j % CHUNK_SIZE := by
        intro hmod
        exact hij (div_mod_chunk_inj i j hc hmod).symm
      cases v with
      | false =>
          rw [get_unchecked_eq, get_unchecked_eq]
          show ((s.chunks.set (i / CHUNK_SIZE) _).getD (j / CHUNK_SIZE) 0 &&& _ != 0) = _
          rw [← hc, getD_set_self _ _ _ hin, bne_and_shift, bne_and_shift, get_index_snd,
            Nat.shiftLeft_eq, one_mul, Nat.testBit_and, Nat.testBit_xor,
            testBit_255 _ (mod_chunk_lt j), Nat.testBit_two_pow_of_ne hbit, hc]
          simp
          rw [get_index_fst, hc]
      | true =>
          rw [get_unchecked_eq, get_unchecked_eq]
          show ((s.chunks.set (i / CHUNK_SIZE) _).getD (j / CHUNK_SIZE) 0 &&& _ != 0) = _
          rw [← hc, getD_set_self _ _ _ hin, bne_and_shift, bne_and_shift, get_index_snd,
            Nat.shiftLeft_eq, one_mul, Nat.testBit_or, Nat.testBit_two_pow_of_ne hbit, hc]
          simp
          rw [get_index_fst, hc]
    · cases v <;>
        · show VecBool.get_unchecked { s with chunks := s.chunks.set (i / CHUNK_SIZE) _ } j = _
          rw [List.set_eq_of_length_le hin]
  · cases v <;>
      · rw [get_unchecked_eq, get_unchecked_eq]
        show ((s.chunks.set (i / CHUNK_SIZE) _).getD (j / CHUNK_SIZE) 0 &&& _ != 0) = _
        rw [getD_set_ne _ _ _ _ hc]

/-! ### Structural lemmas for `push`, `pop`, `set` -/

lemma push_eq (s : VecBool) (v : Bool) :
    s.push v = (if s.len ≥ s.capacity
        then { len := s.len + 1, chunks := s.chunks ++ [0] }
        else { len := s.len + 1, chunks := s.chunks } : VecBool).set_unchecked s.len v := by
  unfold push
  by_cases h : s.len ≥ s.capacity <;> simp [h]

lemma push_len (s : VecBool) (v : Bool) : (s.push v).len = s.len + 1 := by
  rw [push_eq, set_unchecked_len]
  split <;> rfl

lemma push_chunks_length (s : VecBool) (v : Bool) :
    (s.push v).chunks.length =
      if s.len ≥ s.capacity then s.chunks.length + 1 else s.chunks.length := by
  rw [push_eq, set_unchecked_chunks_length]
  split <;> simp

lemma pop_of_len_zero (s : VecBool) (h : s.len = 0) : s.pop = (none, s) := by
  simp [pop, h]

lemma pop_fst (s : VecBool) (h : ¬ s.len = 0) :
    (s.pop).1 = some (s.get_unchecked (s.len - 1)) := by
  simp [pop, h]
  rfl

lemma pop_snd_len (s : VecBool) : (s.pop).2.len = s.len - 1 := by
  by_cases h : s.len = 0
  · rw [pop_of_len_zero s h, h]
  · simp [pop, h]
    split <;> rfl

lemma pop_snd_chunks_boundary (s : VecBool) (h : ¬ s.len = 0)
    (hm : (s.len - 1) % CHUNK_SIZE = 0) : (s.pop).2.chunks = s.chunks.dropLast := by
  simp [pop, h, hm]

lemma pop_snd_chunks_mid (s : VecBool) (h : ¬ s.len = 0)
    (hm : ¬ (s.len - 1) % CHUNK_SIZE = 0) : (s.pop).2.chunks = s.chunks := by
  simp [pop, h, hm]

lemma set_of_ge (s : VecBool) (i : Nat) (v : Bool) (h : i ≥ s.len) :
    s.set i v = (false, s) := by
  simp [set, h]

lemma set_of_lt (s : VecBool) (i : Nat) (v : Bool) (h : i < s.len) :
    s.set i v = (true, s.set_unchecked i v) := by
  unfold set
  rw [if_neg (not_le.mpr h)]

lemma set_snd_len (s : VecBool) (i : Nat) (v : Bool) : (s.set i v).2.len = s.len := by
  unfold set
  split
  · rfl
  · exact set_unchecked_len s i v

lemma set_snd_chunks_length (s : VecBool) (i : Nat) (v : Bool) :
    (s.set i v).2.chunks.length = s.chunks.length := by
  unfold set
  split
  · rfl
  · exact set_unchecked_chunks_length s i v

/-! ### The invariant is inductive over the public API -/

lemma inv_def (s : VecBool) : Inv s ↔
    (s.len ≤ s.chunks.length * 8 ∧ s.chunks.length ≤ s.len / 8 + 2 ∧
      (s.len % 8 = 0 → s.chunks.length ≤ s.len / 8 + 1)) :=
  Iff.rfl

lemma capacity_eq (s : VecBool) : s.capacity = s.chunks.length * 8 :=
  rfl

lemma inv_new : Inv new := by
  rw [inv_def]
  simp [new]

lemma inv_with_capacity (c : Nat) : Inv (with_capacity c) := by
  rw [inv_def]
  simp [with_capacity]

lemma with_zeros_chunks_length (n : Nat) : (with_zeros n).chunks.length = n / 8 + 1 := by
  simp [with_zeros, CHUNK_SIZE]

lemma with_zeros_len (n : Nat) : (with_zeros n).len = n :=
  rfl

lemma inv_with_zeros (n : Nat) : Inv (with_zeros n) := by
  rw [inv_def, with_zeros_chunks_length, with_zeros_len]
  omega

lemma inv_push (s : VecBool) (v : Bool) (h : Inv s) : Inv (s.push v) := by
  rw [inv_def] at h ⊢
  rw [push_len, push_chunks_length]
  by_cases hg : s.len ≥ s.capacity
  · have hg' : s.chunks.length * 8 ≤ s.len := hg
    rw [if_pos hg]
    omega
  · have hg' : ¬ s.chunks.length * 8 ≤ s.len := hg
    rw [if_neg hg]
    omega

lemma inv_pop (s : VecBool) (h : Inv s) : Inv (s.pop).2 := by
  by_cases h0 : s.len = 0
  · rw [pop_of_len_zero s h0]
    exact h
  · rw [inv_def] at h ⊢
    rw [pop_snd_len]
    by_cases hm : (s.len - 1) % CHUNK_SIZE = 0
    · rw [pop_snd_chunks_boundary s h0 hm, List.length_dropLast]
      have hm8 : (s.len - 1) % 8 = 0 := hm
      omega
    · rw [pop_snd_chunks_mid s h0 hm]
      have hm8 : ¬ (s.len - 1) % 8 = 0 := hm
      omega

lemma inv_set (s : VecBool) (i : Nat) (v : Bool) (h : Inv s) : Inv (s.set i v).2 := by
  rw [inv_def] at h ⊢
  rw [set_snd_len, set_snd_chunks_length]
  exact h

/-- Every reachable state satisfies the invariant. -/
theorem reachable_inv {s : VecBool} (h : Reachable s) : Inv s := by
  induction h with
  | of_new => exact inv_new
  | of_with_capacity c => exact inv_with_capacity c
  | of_with_zeros n => exact inv_with_zeros n
  | of_push s v _ ih => exact inv_push s v ih
  | of_pop s _ ih => exact inv_pop s ih
  | of_set s i v _ ih => exact inv_set s i v ih

/-- Writing at the fresh index during `push` lands in an allocated chunk, so the
pushed bit reads back. -/
lemma get_unchecked_push (s : VecBool) (v : Bool) (hA : s.len ≤ s.chunks.length * 8) :
    (s.push v).get_unchecked s.len = v := by
  rw [push_eq]
  by_cases hg : s.len ≥ s.capacity
  · rw [if_pos hg]
    apply get_unchecked_set_unchecked_self
    show s.len / CHUNK_SIZE < (s.chunks ++ [0]).length
    rw [List.length_append]
    have hg' : s.chunks.length * 8 ≤ s.len := hg
    have : s.len / 8 < s.chunks.length + 1 := by omega
    exact this
  · rw [if_neg hg]
    apply get_unchecked_set_unchecked_self
    show s.len / CHUNK_SIZE < s.chunks.length
    have hg' : ¬ s.chunks.length * 8 ≤ s.len := hg
    have : s.len / 8 < s.chunks.length := by omega
    exact this

/-! ### Claims -/

/-- C1: the claim states that on every reachable state `iter` yields exactly
`len` booleans whose `i`-th element equals `get i`.  The code violates this on
the reachable state `with_zeros 8` → `pop` → `set 0 true`: the state keeps two
chunks while only bits of chunk 0 are valid, and `iter` reads its partial tail
from the *last* chunk of storage instead of chunk `len / CHUNK_SIZE`; so
`get 0 = some true` while `iter` yields seven `false`s.  This theorem evaluates
the code at that failing input. -/
theorem C1_iter_get_mismatch :
    Reachable (((with_zeros 8).pop.2.set 0 true).2) ∧
    (((with_zeros 8).pop.2.set 0 true).2).get 0 = some true ∧
    (((with_zeros 8).pop.2.set 0 true).2).iter = List.replicate 7 false ∧
    (((with_zeros 8).pop.2.set 0 true).2).iter.length =
      (((with_zeros 8).pop.2.set 0 true).2).len :=
  ⟨Reachable.of_set _ 0 true (Reachable.of_pop _ (Reachable.of_with_zeros 8)),
   by decide, by decide, by decide⟩

/-- C2 (counterexample): the claim says popping from a length that is an exact
multiple of `CHUNK_SIZE` reduces the chunk count by exactly 1.  On the reachable
state `with_zeros 8` (length 8, a multiple of 8), `pop` leaves the chunk count
unchanged: the code shrinks only when the length *after* the decrement is a
multiple of `CHUNK_SIZE`. -/
theorem C2_counterexample :
    Reachable (with_zeros 8) ∧
    (with_zeros 8).len % CHUNK_SIZE = 0 ∧ 0 < (with_zeros 8).len ∧
    ((with_zeros 8).pop).2.chunks.length = (with_zeros 8).chunks.length :=
  ⟨Reachable.of_with_zeros 8, by decide, by decide, by decide⟩

/-- C2 (amended): on every reachable state with positive length, `pop` removes
exactly one chunk precisely when the length *before* the call is ≡ 1 mod
`CHUNK_SIZE` (i.e. the new length lands on a chunk boundary); for every other
length the chunk count is unchanged. -/
theorem C2_amended_pop_shrink (s : VecBool) (h : Reachable s) (h0 : 0 < s.len) :
    (s.len % CHUNK_SIZE = 1 → (s.pop).2.chunks.length + 1 = s.chunks.length) ∧
    (¬ s.len % CHUNK_SIZE = 1 → (s.pop).2.chunks.length = s.chunks.length) := by
  have hA : s.len ≤ s.chunks.length * 8 := (reachable_inv h).1
  have h0' : ¬ s.len = 0 := by omega
  constructor
  · intro hm
    have hm1 : s.len % 8 = 1 := hm
    have hmb : (s.len - 1) % CHUNK_SIZE = 0 := by
      show (s.len - 1) % 8 = 0
      omega
    rw [pop_snd_chunks_boundary s h0' hmb, List.length_dropLast]
    omega
  · intro hm
    have hm1 : ¬ s.len % 8 = 1 := hm
    have hmb : ¬ (s.len - 1) % CHUNK_SIZE = 0 := by
      show ¬ (s.len - 1) % 8 = 0
      omega
    rw [pop_snd_chunks_mid s h0' hmb]

/-- C2 (witness): the amended claim at the reachable state `new.push true`. -/
theorem C2_amended_pop_shrink_witness :
    Reachable (new.push true) ∧ 0 < (new.push true).len ∧
    (((new.push true).len % CHUNK_SIZE = 1 →
        ((new.push true).pop).2.chunks.length + 1 = (new.push true).chunks.length) ∧
     (¬ (new.push true).len % CHUNK_SIZE = 1 →
        ((new.push true).pop).2.chunks.length = (new.push true).chunks.length)) :=
  ⟨Reachable.of_push _ _ Reachable.of_new, by decide,
   C2_amended_pop_shrink _ (Reachable.of_push _ _ Reachable.of_new) (by decide)⟩

/-- C3: on every reachable state, `pop` on a non-empty container decrements the
length, returns `Some` of the bit at the new last valid index, and removes
exactly one trailing chunk (capacity shrinks by exactly `CHUNK_SIZE`) precisely
when the new length is an exact multiple of `CHUNK_SIZE`; on an empty container
it returns `none` and mutates nothing. -/
theorem C3_pop_contract (s : VecBool) (h : Reachable s) :
    (0 < s.len →
      (s.pop).1 = s.get (s.len - 1) ∧
      (s.pop).2.len = s.len - 1 ∧
      ((s.len - 1) % CHUNK_SIZE = 0 → (s.pop).2.capacity + CHUNK_SIZE = s.capacity) ∧
      (¬ (s.len - 1) % CHUNK_SIZE = 0 → (s.pop).2.capacity = s.capacity)) ∧
    (s.len = 0 → s.pop = (none, s)) := by
  have hA : s.len ≤ s.chunks.length * 8 := (reachable_inv h).1
  constructor
  · intro h0
    have h0' : ¬ s.len = 0 := by omega
    refine ⟨?_, pop_snd_len s, ?_, ?_⟩
    · rw [pop_fst s h0']
      unfold get
      rw [if_neg (by omega)]
    · intro hm
      rw [capacity_eq, capacity_eq, pop_snd_chunks_boundary s h0' hm, List.length_dropLast]
      show (s.chunks.length - 1) * 8 + 8 = s.chunks.length * 8
      omega
    · intro hm
      rw [capacity_eq, capacity_eq, pop_snd_chunks_mid s h0' hm]
  · intro h0
    exact pop_of_len_zero s h0

/-- C3 (witness): the pop contract at the reachable state `new.push true`. -/
theorem C3_pop_contract_witness :
    Reachable (new.push true) ∧
    ((0 < (new.push true).len →
      ((new.push true).pop).1 = (new.push true).get ((new.push true).len - 1) ∧
      ((new.push true).pop).2.len = (new.push true).len - 1 ∧
      (((new.push true).len - 1) % CHUNK_SIZE = 0 →
        ((new.push true).pop).2.capacity + CHUNK_SIZE = (new.push true).capacity) ∧
      (¬ ((new.push true).len - 1) % CHUNK_SIZE = 0 →
        ((new.push true).pop).2.capacity = (new.push true).capacity)) ∧
    ((new.push true).len = 0 → (new.push true).pop = (none, new.push true))) :=
  ⟨Reachable.of_push _ _ Reachable.of_new,
   C3_pop_contract _ (Reachable.of_push _ _ Reachable.of_new)⟩

/-- C4 (counterexample): the claim bounds the chunk count by
`len / CHUNK_SIZE + 1` on every reachable state.  The reachable state
`with_zeros 8` → `pop` has length 7 but still two chunks, and `7 / 8 + 1 = 1`. -/
theorem C4_counterexample :
    Reachable ((with_zeros 8).pop.2) ∧
    ¬ ((with_zeros 8).pop.2.chunks.length ≤ (with_zeros 8).pop.2.len / CHUNK_SIZE + 1) :=
  ⟨Reachable.of_pop _ (Reachable.of_with_zeros 8), by decide⟩

/-- C4 (amended): on every reachable state the chunk count never exceeds
`len / CHUNK_SIZE + 2`, and the original `+ 1` bound does hold whenever the
length is an exact multiple of `CHUNK_SIZE`. -/
theorem C4_amended_chunk_bound (s : VecBool) (h : Reachable s) :
    s.chunks.length ≤ s.len / CHUNK_SIZE + 2 ∧
    (s.len % CHUNK_SIZE = 0 → s.chunks.length ≤ s.len / CHUNK_SIZE + 1) :=
  ⟨(reachable_inv h).2.1, (reachable_inv h).2.2⟩

/-- C4 (witness): the amended bounds at the reachable state `new`, whose
length 0 is a multiple of `CHUNK_SIZE`, so both clauses bite. -/
theorem C4_amended_chunk_bound_witness :
    Reachable new ∧
    (new.chunks.length ≤ new.len / CHUNK_SIZE + 2 ∧
      (new.len % CHUNK_SIZE = 0 → new.chunks.length ≤ new.len / CHUNK_SIZE + 1)) :=
  ⟨Reachable.of_new, C4_amended_chunk_bound _ Reachable.of_new⟩

/-- C5 (counterexample): the claim says `capacity()` observed immediately after
`with_capacity hint` is at least `hint`.  In the code `Vec::with_capacity` only
reserves backing memory: the chunk vector has zero elements, so
`capacity() = 0 < 8` after `with_capacity 8`. -/
theorem C5_counterexample :
    (with_capacity 8).capacity = 0 ∧ ¬ (8 ≤ (with_capacity 8).capacity) :=
  ⟨rfl, by decide⟩

/-- C5 (amended): `with_capacity hint` produces length 0 and an empty chunk
vector, so `capacity()` is 0 immediately after construction; the hint only
pre-reserves backing memory for `hint / CHUNK_SIZE + 1` chunks, which is
invisible to `capacity()`. -/
theorem C5_amended_with_capacity (c : Nat) :
    (with_capacity c).len = 0 ∧ (with_capacity c).chunks.length = 0 ∧
    (with_capacity c).capacity = 0 ∧
    with_capacity_reserved_chunks c = c / CHUNK_SIZE + 1 :=
  ⟨rfl, rfl, rfl, rfl⟩

/-- C6: for every state and every index at or beyond the length, `get` returns
`none` and `set` returns `false` leaving the whole state unchanged. -/
theorem C6_out_of_range (s : VecBool) (i : Nat) (v : Bool) (h : s.len ≤ i) :
    s.get i = none ∧ s.set i v = (false, s) :=
  ⟨by unfold get; rw [if_pos h], set_of_ge s i v h⟩

/-- C6 (witness): out-of-range access on the empty container. -/
theorem C6_out_of_range_witness :
    new.len ≤ 0 ∧ (new.get 0 = none ∧ new.set 0 true = (false, new)) :=
  ⟨by decide, C6_out_of_range new 0 true (by decide)⟩

/-- C7: on every reachable state, `pop` immediately after `push v` returns
`some v` and restores the length to its value before the push. -/
theorem C7_push_pop_inverse (s : VecBool) (h : Reachable s) (v : Bool) :
    ((s.push v).pop).1 = some v ∧ ((s.push v).pop).2.len = s.len := by
  have hA : s.len ≤ s.chunks.length * 8 := (reachable_inv h).1
  constructor
  · have hne : ¬ (s.push v).len = 0 := by rw [push_len]; omega
    rw [pop_fst _ hne, push_len, Nat.add_sub_cancel, get_unchecked_push s v hA]
  · rw [pop_snd_len, push_len]
    omega

/-- C7 (witness): push/pop inverse starting from the empty container. -/
theorem C7_push_pop_inverse_witness :
    Reachable new ∧
    (((new.push true).pop).1 = some true ∧ ((new.push true).pop).2.len = new.len) :=
  ⟨Reachable.of_new, C7_push_pop_inverse _ Reachable.of_new true⟩

/-- C8: on every reachable state, after `push v` a `get` at the newly written
last index returns `some v`. -/
theorem C8_push_get_roundtrip (s : VecBool) (h : Reachable s) (v : Bool) :
    (s.push v).get ((s.push v).len - 1) = some v := by
  have hA : s.len ≤ s.chunks.length * 8 := (reachable_inv h).1
  rw [push_len, Nat.add_sub_cancel]
  unfold get
  rw [if_neg (by rw [push_len]; omega), get_unchecked_push s v hA]

/-- C8 (witness): the round-trip starting from the empty container. -/
theorem C8_push_get_roundtrip_witness :
    Reachable new ∧ (new.push false).get ((new.push false).len - 1) = some false :=
  ⟨Reachable.of_new, C8_push_get_roundtrip _ Reachable.of_new false⟩

/-- C9: on every reachable state, `len ≤ capacity`, and `capacity` equals the
chunk count times `CHUNK_SIZE`. -/
theorem C9_length_capacity (s : VecBool) (h : Reachable s) :
    s.len ≤ s.capacity ∧ s.capacity = s.chunks.length * CHUNK_SIZE :=
  ⟨(reachable_inv h).1, rfl⟩

/-- C9 (witness): the length invariant at the reachable state `with_zeros 5`. -/
theorem C9_length_capacity_witness :
    Reachable (with_zeros 5) ∧
    ((with_zeros 5).len ≤ (with_zeros 5).capacity ∧
      (with_zeros 5).capacity = (with_zeros 5).chunks.length * CHUNK_SIZE) :=
  ⟨Reachable.of_with_zeros 5, C9_length_capacity _ (Reachable.of_with_zeros 5)⟩

/-- C10: on every reachable state, a successful `set i v` (with `i < len`)
returns `true`, keeps `len` and `capacity` unchanged, and leaves `get j`
unchanged at every index `j ≠ i`. -/
theorem C10_set_frame (s : VecBool) (h : Reachable s) (i : Nat) (hi : i < s.len) (v : Bool) :
    (s.set i v).1 = true ∧ (s.set i v).2.len = s.len ∧
    (s.set i v).2.capacity = s.capacity ∧
    ∀ j, ¬ j = i → (s.set i v).2.get j = s.get j := by
  refine ⟨?_, set_snd_len s i v, ?_, ?_⟩
  · rw [set_of_lt s i v hi]
  · rw [capacity_eq, capacity_eq, set_snd_chunks_length]
  · intro j hj
    unfold get
    rw [set_snd_len]
    by_cases hjl : j ≥ s.len
    · rw [if_pos hjl, if_pos hjl]
    · rw [if_neg hjl, if_neg hjl, set_of_lt s i v hi]
      exact congrArg some (get_unchecked_set_unchecked_ne s i j v hj)

/-- C10 (witness): the frame property of `set 0 false` at index 1 on the
reachable state `(new.push true).push true`. -/
theorem C10_set_frame_witness :
    Reachable ((new.push true).push true) ∧
    0 < ((new.push true).push true).len ∧
    (((new.push true).push true).set 0 false).1 = true ∧
    ((((new.push true).push true).set 0 false).2).get 1 = ((new.push true).push true).get 1 :=
  ⟨Reachable.of_push _ _ (Reachable.of_push _ _ Reachable.of_new), by decide,
   (C10_set_frame _ (Reachable.of_push _ _ (Reachable.of_push _ _ Reachable.of_new))
      0 (by decide) false).1,
   (C10_set_frame _ (Reachable.of_push _ _ (Reachable.of_push _ _ Reachable.of_new))
      0 (by decide) false).2.2.2 1 (by decide)⟩

end VecBool

end VecBoolSpec
